import Mathlib

/-!
Shallow embedding of the updatehub update-lifecycle state machine
(`src/states/*.rs`) together with the data model it manipulates.

Conventions of the embedding:
* Timestamps and durations are integer numbers of seconds (`Int`), matching
  the code's use of `chrono` second-granularity arithmetic.
* Randomness (the first-poll offset) and external collaborators (the update
  server, the download client, the state-change-callback script, the wall
  clock) are parameters of the functions that consume them.
* Observable side effects (saving the runtime settings, sleeping, removing a
  file, invoking `download_object`) are recorded in an explicit trace of
  `Effect` values, returned together with the functional result.
* Fallible operations return `Except String`; a Rust `panic!` is modelled as
  an `Except.error` as well (both are fatal to the driver loop).
-/

/-- Polling section of the immutable `Settings` (`settings.polling`). -/
structure PollingSettings where
  enabled : Bool
  interval : Int
  deriving DecidableEq

/-- Storage section of the immutable `Settings` (`settings.storage`). -/
structure StorageSettings where
  read_only : Bool
  deriving DecidableEq

/-- Update section of the immutable `Settings` (`settings.update`). -/
structure UpdateSettings where
  download_dir : String
  deriving DecidableEq

/-- Firmware section of the immutable `Settings` (`settings.firmware`). -/
structure FirmwareSettings where
  metadata_path : String
  deriving DecidableEq

/-- The immutable, read-only-after-load `Settings`. -/
structure Settings where
  polling : PollingSettings
  storage : StorageSettings
  update : UpdateSettings
  firmware : FirmwareSettings
  deriving DecidableEq

/-- Polling section of the persisted `RuntimeSettings`
(`runtime_settings.polling`). -/
structure RuntimePolling where
  last : Option Int
  now : Bool
  extra_interval : Option Int
  retries : Nat
  deriving DecidableEq

/-- The mutable, persisted `RuntimeSettings`. -/
structure RuntimeSettings where
  polling : RuntimePolling
  deriving DecidableEq

/-- Modelled from the spec: `FirmwareMetadata` (the `firmware/metadata.rs`
module is not part of the sources) — device identity: product UID, hardware
identifier and current version. -/
structure Metadata where
  product_uid : String
  hardware : String
  version : String
  deriving DecidableEq

/-- The `InnerState` record of `states/mod.rs`: the shared context threaded
through every state. -/
structure InnerState where
  settings : Settings
  runtime_settings : RuntimeSettings
  firmware : Metadata
  deriving DecidableEq

/-- Modelled from the spec: one content-addressed `Object` of a package (the
`update_package.rs` module is not part of the sources): its `sha256sum`
(simultaneously identifier, on-disk filename and checksum) and declared
`size`. -/
structure UObject where
  sha256sum : String
  size : Nat
  deriving DecidableEq

/-- Modelled from the spec: the server-returned `UpdatePackage` manifest (the
`update_package.rs` module is not part of the sources): a `package_uid`, a
`supported_hardware` predicate (modelled as the list of supported hardware
identifiers) and the ordered list of objects. -/
structure UpdatePackage where
  package_uid : String
  supported_hardware : List String
  objects : List UObject
  deriving DecidableEq

/-- Modelled from the spec: `pkg.compatible_with(&firmware)` succeeds exactly
when the device's hardware identifier satisfies the package's
`supported_hardware` predicate. -/
def UpdatePackage.compatible_with (pkg : UpdatePackage) (fw : Metadata) : Bool :=
  pkg.supported_hardware.contains fw.hardware

/-- Trace of the observable side effects a state handler performs. -/
inductive Effect where
  /-- `runtime_settings.save()` wrote this value of the runtime settings. -/
  | saveRS (rs : RuntimeSettings)
  /-- the handler slept for this many seconds -/
  | sleepSecs (n : Int)
  /-- `fs::remove_file` deleted the file of this name in `download_dir` -/
  | fsRemove (name : String)
  /-- `Api::download_object(package_uid, sha256sum)` was invoked -/
  | dlCall (package_uid : String) (sha256sum : String)
  deriving DecidableEq

/-- True for the effects that touch the download directory: a file removal or
a `download_object` invocation (which streams into the directory). -/
def Effect.touchesDownloadDir : Effect → Bool
  | .fsRemove _ => true
  | .dlCall _ _ => true
  | _ => false

/-- Successor state chosen by `Idle::handle` (`states/idle.rs`). -/
inductive IdleNext where
  | park
  | poll
  deriving DecidableEq

/-- Embedding of `Idle::handle` (`states/idle.rs`): if polling is disabled go
to `Park`, otherwise go to `Poll`; the context and `applied_package_uid` are
moved along unchanged and no effect is performed. -/
def idleHandle (settings : Settings) : IdleNext :=
  if !settings.polling.enabled then .park else .poll

/-- Successor state chosen by `Poll::handle` (`states/poll.rs`); it is always
`Probe`. -/
inductive PollNext where
  | probe
  deriving DecidableEq

/-- Result of `Poll::handle`: the successor state, the runtime settings as
passed on, and the trace of effects (possibly a sleep). -/
structure PollOut where
  next : PollNext
  rs : RuntimeSettings
  effects : List Effect
  deriving DecidableEq

/-- Embedding of `Poll::handle` (`states/poll.rs`).  `currentTime` stands for
`Utc::now()` and `offset` for the value drawn by
`rnd.gen_range(0, interval)`; both are inputs of the embedding. -/
def pollHandle (settings : Settings) (rs : RuntimeSettings)
    (currentTime : Int) (offset : Int) : PollOut :=
  if rs.polling.now then
    { next := .probe, rs := rs, effects := [] }
  else
    let last_poll := rs.polling.last.getD (currentTime + offset)
    if last_poll > currentTime then
      { next := .probe, rs := rs, effects := [] }
    else if last_poll + (rs.polling.extra_interval.getD 0) < currentTime then
      { next := .probe, rs := rs, effects := [] }
    else
      { next := .probe, rs := rs,
        effects := [Effect.sleepSecs settings.polling.interval] }

/-- The response of `Api.probe()` (`client.rs`, present only through its use
in `states/probe.rs`). -/
inductive ProbeResponse where
  | NoUpdate
  | ExtraPoll (seconds : Int)
  | Update (pkg : UpdatePackage)
  deriving DecidableEq

/-- Successor state chosen by `Probe::handle` (`states/probe.rs`). -/
inductive ProbeNext where
  | idle (applied_package_uid : Option String)
  | poll (applied_package_uid : Option String)
  | download (pkg : UpdatePackage)
  deriving DecidableEq

instance {ε α : Type} [DecidableEq ε] [DecidableEq α] : DecidableEq (Except ε α) := fun x y =>
  match x, y with
  | .ok a, .ok b =>
    if h : a = b then .isTrue (by rw [h]) else .isFalse (by simp [h])
  | .ok _, .error _ => .isFalse (by simp)
  | .error _, .ok _ => .isFalse (by simp)
  | .error e, .error f =>
    if h : e = f then .isTrue (by rw [h]) else .isFalse (by simp [h])

/-- Result of `Probe::handle`: the successor state (or the propagated
hardware-compatibility error), the runtime settings as passed on, and the
trace of effects (retry sleeps, then possibly a save). -/
structure ProbeOut where
  next : Except String ProbeNext
  rs : RuntimeSettings
  effects : List Effect
  deriving DecidableEq

/-- Update `runtime_settings.polling.retries`. -/
def setRetries (rs : RuntimeSettings) (n : Nat) : RuntimeSettings :=
  { rs with polling := { rs.polling with retries := n } }

/-- Update `runtime_settings.polling.extra_interval`. -/
def setExtraInterval (rs : RuntimeSettings) (e : Option Int) : RuntimeSettings :=
  { rs with polling := { rs.polling with extra_interval := e } }

/-- Update `runtime_settings.polling.now`. -/
def setPollingNow (rs : RuntimeSettings) (b : Bool) : RuntimeSettings :=
  { rs with polling := { rs.polling with now := b } }

/-- Embedding of the retry loop at the top of `Probe::handle`: `failures`
probe attempts fail (each one increments `polling.retries` and sleeps one
second), then one attempt succeeds and `polling.retries` is reset to 0. -/
def probeRetry : Nat → RuntimeSettings → RuntimeSettings × List Effect
  | 0, rs => (setRetries rs 0, [])
  | k + 1, rs =>
    let rs1 := setRetries rs (rs.polling.retries + 1)
    let (rs2, es) := probeRetry k rs1
    (rs2, Effect.sleepSecs 1 :: es)

/-- Embedding of `Probe::handle` (`states/probe.rs`).  The network is
abstracted by `failures` (how many `Api.probe()` calls fail before one
succeeds) and `resp` (the successful response). -/
def probeHandle (settings : Settings) (rs0 : RuntimeSettings)
    (fw : Metadata) (applied_package_uid : Option String)
    (failures : Nat) (resp : ProbeResponse) : ProbeOut :=
  let pr := probeRetry failures rs0
  let rsB := setExtraInterval pr.1
    (match resp with
     | .ExtraPoll s => some s
     | _ => none)
  let esB := pr.2 ++ (if !settings.storage.read_only then [Effect.saveRS rsB] else [])
  match resp with
  | .NoUpdate =>
    { next := .ok (.idle applied_package_uid), rs := rsB, effects := esB }
  | .ExtraPoll _ =>
    { next := .ok (.poll applied_package_uid), rs := rsB, effects := esB }
  | .Update u =>
    if u.compatible_with fw then
      if some u.package_uid = applied_package_uid then
        { next := .ok (.idle applied_package_uid), rs := rsB, effects := esB }
      else
        { next := .ok (.download u), rs := rsB, effects := esB }
    else
      { next := .error "Package is not compatible with the device hardware",
        rs := rsB, effects := esB }

/-- Successor state chosen by `Install::handle` (`states/install.rs`); it is
always `Reboot`, carrying the recorded `applied_package_uid`. -/
inductive InstallNext where
  | reboot (applied_package_uid : Option String)
  deriving DecidableEq

/-- Result of `Install::handle`: the successor state, the runtime settings as
passed on, and the trace of effects (possibly a save). -/
structure InstallOut where
  next : InstallNext
  rs : RuntimeSettings
  effects : List Effect
  deriving DecidableEq

/-- Embedding of `Install::handle` (`states/install.rs`): set
`polling.now := true`, record `applied_package_uid = Some(pkg.package_uid)`,
save the runtime settings unless the storage is read-only, move to
`Reboot`. -/
def installHandle (settings : Settings) (rs0 : RuntimeSettings)
    (pkg : UpdatePackage) : InstallOut :=
  let rs1 := setPollingNow rs0 true
  let applied_package_uid := some pkg.package_uid
  let es := if !settings.storage.read_only then [Effect.saveRS rs1] else []
  { next := .reboot applied_package_uid, rs := rs1, effects := es }

/-- The verdict of the transition-hook engine (`states/transition.rs`). -/
inductive Transition where
  | Continue
  | Cancel
  deriving DecidableEq

/-- Embedding of Rust's `str::trim` on a list of characters: drop whitespace
from both ends. -/
def rustTrim (cs : List Char) : List Char :=
  ((cs.dropWhile Char.isWhitespace).reverse.dropWhile Char.isWhitespace).reverse

/-- Helper of `splitn2Space`: accumulate the first token (in reverse) until
the first space. -/
def splitn2SpaceAux (acc : List Char) : List Char → List (List Char)
  | [] => [acc.reverse]
  | c :: rest =>
    if c = ' ' then [acc.reverse, rest]
    else splitn2SpaceAux (c :: acc) rest

/-- Embedding of Rust's `str::splitn(2, ' ')` collected into a vector: split
at the first space into at most two tokens (the empty string yields one empty
token). -/
def splitn2Space (cs : List Char) : List (List Char) :=
  splitn2SpaceAux [] cs

/-- Embedding of `state_change_callback` (`states/transition.rs`).  The
filesystem and the script run are abstracted by `hookExists` (does
`<path>/state-change-callback` exist?) and `scriptRun` (the result of
`easy_process::run`, carrying the script's stdout on success).  Stderr
logging is not modelled. -/
def state_change_callback (callbackName : Option String) (hookExists : Bool)
    (scriptRun : Except String String) : Except String Transition :=
  match callbackName with
  | none => .ok .Continue
  | some state =>
    if !hookExists then .ok .Continue
    else
      match scriptRun with
      | .error e => .error e
      | .ok stdout =>
        match splitn2Space (rustTrim stdout.data) with
        | [tok] =>
          if tok = "cancel".data then .ok .Cancel
          else if tok = [] then .ok .Continue
          else .error ("Invalid format found while running the hook for state " ++ state)
        | _ => .error ("Invalid format found while running the hook for state " ++ state)

/-- The tagged-variant view of the trait-object states of `states/mod.rs`:
each carries the shared context; `Download` and `Install` additionally carry
the update package. -/
inductive StateD where
  | idle (inner : InnerState) (applied_package_uid : Option String)
  | park (inner : InnerState) (applied_package_uid : Option String)
  | poll (inner : InnerState) (applied_package_uid : Option String)
  | probe (inner : InnerState) (applied_package_uid : Option String)
  | download (inner : InnerState) (pkg : UpdatePackage)
  | install (inner : InnerState) (pkg : UpdatePackage)
  | reboot (inner : InnerState) (applied_package_uid : Option String)
  deriving DecidableEq

/-- The `StateTransitioner` of `states/mod.rs`: the context and
`applied_package_uid` produced by a state's `handle`, together with the
closure building the planned next state. -/
structure StateTransitioner where
  inner : InnerState
  applied_package_uid : Option String
  transition : InnerState → Option String → StateD

/-- Embedding of `StateTransitioner::transition`: apply the planned
transition to the carried context. -/
def StateTransitioner.run (tr : StateTransitioner) : StateD :=
  tr.transition tr.inner tr.applied_package_uid

/-- Embedding of `StateTransitioner::cancel`: discard the planned transition
and build `Idle` from the carried context. -/
def StateTransitioner.cancelled (tr : StateTransitioner) : StateD :=
  .idle tr.inner tr.applied_package_uid

/-- Trace of the driver-visible calls `State::handle_callbacks` makes, in
order. -/
inductive DriverEvent where
  /-- the state's `handle` operation was invoked -/
  | handleCalled
  /-- the state-change-callback engine was invoked with this state name -/
  | hookCalled (name : String)
  deriving DecidableEq

/-- Embedding of `State::handle_callbacks` (`states/mod.rs`).  The state's
`handle` is abstracted by its result `handleResult` (already an
`Except`-value, since the embedding cannot observe the call itself other than
through the emitted `DriverEvent.handleCalled`), and the transition-hook
engine by the oracle `hook`.  The code first runs `handle` (the `?` on
`self.handle()` propagates its error), and only then, when the state has a
callback name, consults the hook: `Continue` applies the planned transition,
`Cancel` discards it and yields `Idle` from the transitioner's context, and a
hook error panics (modelled as `Except.error`). -/
def handle_callbacks (callbackName : Option String)
    (handleResult : Except String StateTransitioner)
    (hook : String → Except String Transition) :
    Except String StateD × List DriverEvent :=
  match handleResult with
  | .error e => (.error e, [.handleCalled])
  | .ok transitioner =>
    match callbackName with
    | none => (.ok transitioner.run, [.handleCalled])
    | some callback_name =>
      match hook callback_name with
      | .ok .Continue =>
        (.ok transitioner.run, [.handleCalled, .hookCalled callback_name])
      | .ok .Cancel =>
        (.ok transitioner.cancelled, [.handleCalled, .hookCalled callback_name])
      | .error e => (.error e, [.handleCalled, .hookCalled callback_name])

/-- Content of a regular file, abstracted to what the object-status
computation observes: its byte length and its SHA-256 digest (lowercase hex
string). -/
structure FileData where
  size : Nat
  hash : String
  deriving DecidableEq

/-- One directory entry immediately under `download_dir`: a regular file with
its content, or a subdirectory (whose subtree the `Download` state never
visits — `WalkDir`'s `filter_entry(is_file)` skips descending into
directories). -/
inductive FSEntry where
  | file (name : String) (data : FileData)
  | dir (name : String)
  deriving DecidableEq

/-- The download directory: its list of entries in traversal order. -/
def FileSystem := List FSEntry

instance : DecidableEq FileSystem := fun a b => List.hasDecEq a b

/-- Names of the regular files immediately under the directory. -/
def fileNames : FileSystem → List String
  | [] => []
  | .file n _ :: rest => n :: fileNames rest
  | .dir _ :: rest => fileNames rest

/-- Look up the content of the regular file of the given name. -/
def lookupFile : FileSystem → String → Option FileData
  | [], _ => none
  | .file n d :: rest, m => if n = m then some d else lookupFile rest m
  | .dir _ :: rest, m => lookupFile rest m

/-- Embedding of `fs::remove_file(download_dir.join(name))`: remove the file
of that name, or fail (Rust's `NotFound` error, propagated by `?`) when no
such file exists. -/
def removeFileE : FileSystem → String → Except String FileSystem
  | [], n => .error ("No such file or directory: " ++ n)
  | .file m d :: rest, n =>
    if m = n then .ok rest
    else (removeFileE rest n).map (fun fs => .file m d :: fs)
  | .dir m :: rest, n => (removeFileE rest n).map (fun fs => .dir m :: fs)

/-- Effect on the directory of the download client streaming content `d`
into `<download_dir>/<name>`: overwrite the file of that name, or create it
at the end of the directory. -/
def writeFile : FileSystem → String → FileData → FileSystem
  | [], n, d => [.file n d]
  | .file m e :: rest, n, d =>
    if m = n then .file m d :: rest else .file m e :: writeFile rest n d
  | .dir m :: rest, n, d => .dir m :: writeFile rest n d

/-- Modelled from the spec: the derived `ObjectStatus` (the
`update_package.rs` module is not part of the sources): `Missing` when the
file is absent, `Incomplete` when it is shorter than the declared size,
`Corrupted` when the size is reached but the hash mismatches, `Ready`
otherwise. -/
inductive ObjectStatus where
  | Missing
  | Incomplete
  | Corrupted
  | Ready
  deriving DecidableEq

/-- Modelled from the spec: `object.status(&download_dir)`, computed on
demand from the download directory. -/
def objectStatus (fs : FileSystem) (o : UObject) : ObjectStatus :=
  match lookupFile fs o.sha256sum with
  | none => .Missing
  | some d =>
    if d.size < o.size then .Incomplete
    else if d.hash ≠ o.sha256sum then .Corrupted
    else .Ready

/-- Modelled from the spec: `update_package.filter_objects(&settings, &st)`
— the package's objects whose current status is `st`, in manifest order. -/
def filterObjects (pkg : UpdatePackage) (fs : FileSystem) (st : ObjectStatus) :
    List UObject :=
  pkg.objects.filter (fun o => objectStatus fs o = st)

/-- The declared sha256sums of the package's objects, in manifest order
(`update_package.objects().iter().map(|o| o.sha256sum()).collect()`). -/
def shaList (pkg : UpdatePackage) : List String :=
  pkg.objects.map (fun o => o.sha256sum)

/-- Embedding of the foreign-file prune loop of `Download::handle`
(`states/download.rs`): walk the entries immediately under `download_dir`
(`WalkDir` with `min_depth(1)` and `filter_entry(is_file)`, which yields the
direct regular files and skips subdirectories without descending) and remove
every file whose name is not among the declared sha256sums.  Each removal
targets the entry just visited, so it always succeeds. -/
def pruneForeignLoop (shas : List String) : FileSystem → FileSystem × List Effect
  | [] => ([], [])
  | .dir n :: rest =>
    let (fs, es) := pruneForeignLoop shas rest
    (.dir n :: fs, es)
  | .file n d :: rest =>
    let (fs, es) := pruneForeignLoop shas rest
    if shas.contains n then (.file n d :: fs, es)
    else (fs, Effect.fsRemove n :: es)

/-- Embedding of the corrupted-object prune loop of `Download::handle`: for
each object of the given (pre-computed) list, `fs::remove_file` its file by
path; a failed removal propagates. -/
def pruneCorruptedLoop : List UObject → FileSystem → Except String (FileSystem × List Effect)
  | [], fs => .ok (fs, [])
  | o :: os, fs =>
    match removeFileE fs o.sha256sum with
    | .error e => .error e
    | .ok fs1 =>
      match pruneCorruptedLoop os fs1 with
      | .error e => .error e
      | .ok (fs2, es) => .ok (fs2, Effect.fsRemove o.sha256sum :: es)

/-- Embedding of the fetch loop of `Download::handle`: invoke
`Api::download_object(package_uid, sha256sum)` for each object of the given
(pre-computed) list; the client streams the downloaded content into the
object's canonical path, and a failed download propagates. -/
def fetchLoop (package_uid : String) (dl : String → Except String FileData) :
    List UObject → FileSystem → Except String (FileSystem × List Effect)
  | [], fs => .ok (fs, [])
  | o :: os, fs =>
    match dl o.sha256sum with
    | .error e => .error e
    | .ok d =>
      match fetchLoop package_uid dl os (writeFile fs o.sha256sum d) with
      | .error e => .error e
      | .ok (fs2, es) => .ok (fs2, Effect.dlCall package_uid o.sha256sum :: es)

/-- Embedding of `Download::handle` (`states/download.rs`): prune foreign
files, prune corrupted objects, download the missing then the incomplete
objects (both lists are computed before any download starts, as both
`filter_objects` calls are evaluated when the chained iterator is built),
then transition to `Install` if every object is `Ready` and fail with
"Not all objects are ready for use" otherwise.  On success the final
directory and the effect trace are returned; `dl` abstracts the download
client. -/
def downloadHandle (pkg : UpdatePackage) (fs : FileSystem)
    (dl : String → Except String FileData) :
    Except String (FileSystem × List Effect) :=
  let pr := pruneForeignLoop (shaList pkg) fs
  match pruneCorruptedLoop (filterObjects pkg pr.1 .Corrupted) pr.1 with
  | .error e => .error e
  | .ok (fs2, es2) =>
    match fetchLoop pkg.package_uid dl
        (filterObjects pkg fs2 .Missing ++ filterObjects pkg fs2 .Incomplete) fs2 with
    | .error e => .error e
    | .ok (fs3, es3) =>
      if pkg.objects.all (fun o => objectStatus fs3 o = .Ready) then
        .ok (fs3, pr.2 ++ es2 ++ es3)
      else
        .error "Not all objects are ready for use"

/-- Spec-side step 1 ("Prune foreign files"): keep every subdirectory
(no recursion) and exactly the regular files whose name is among the declared
sha256sums; every other regular file immediately under `download_dir` is
removed. -/
def pruneForeignSpec (shas : List String) (fs : FileSystem) : FileSystem :=
  fs.filter fun e =>
    match e with
    | .dir _ => true
    | .file n _ => shas.contains n

/-- Names of the foreign regular files step 1 removes, in directory order. -/
def foreignNames (shas : List String) (fs : FileSystem) : List String :=
  (fileNames fs).filter (fun n => !shas.contains n)

/-- Spec-side step 2 ("Prune corrupted objects"): remove the file of every
object of the given (corrupted) list. -/
def pruneCorruptedSpec (names : List String) (fs : FileSystem) : FileSystem :=
  fs.filter fun e =>
    match e with
    | .dir _ => true
    | .file n _ => !names.contains n

/-- Removal of the file of one name, expressed as a filter: keep every
subdirectory and every regular file of a different name. -/
def removeName (n : String) (fs : FileSystem) : FileSystem :=
  fs.filter fun e =>
    match e with
    | .dir _ => true
    | .file m _ => !(m == n)

/-- Spec-side step 3 ("Fetch"): invoke `download_object` for each listed
object in order, the client streaming each downloaded content to the
object's canonical path; a failed download propagates. -/
def fetchSpec (package_uid : String) (dl : String → Except String FileData) :
    List UObject → FileSystem → Except String (FileSystem × List Effect)
  | [], fs => .ok (fs, [])
  | o :: os, fs =>
    match dl o.sha256sum with
    | .error e => .error e
    | .ok d =>
      match fetchSpec package_uid dl os (writeFile fs o.sha256sum d) with
      | .error e => .error e
      | .ok (fs2, es) => .ok (fs2, Effect.dlCall package_uid o.sha256sum :: es)

/-- The `Download` procedure exactly as claimed: first remove the foreign
regular files immediately under the directory (not recursing into
subdirectories), then remove the file of every `Corrupted` object, then
invoke `download_object` for every `Missing` and then every `Incomplete`
object, and finally transition to `Install` when every object is `Ready`,
failing with "Not all objects are ready for use" otherwise. -/
def downloadSpec (pkg : UpdatePackage) (fs : FileSystem)
    (dl : String → Except String FileData) :
    Except String (FileSystem × List Effect) :=
  let fs1 := pruneForeignSpec (shaList pkg) fs
  let es1 := (foreignNames (shaList pkg) fs).map Effect.fsRemove
  let corrupted := filterObjects pkg fs1 .Corrupted
  let fs2 := pruneCorruptedSpec (corrupted.map (fun o => o.sha256sum)) fs1
  let es2 := corrupted.map (fun o => Effect.fsRemove o.sha256sum)
  let toFetch := filterObjects pkg fs2 .Missing ++ filterObjects pkg fs2 .Incomplete
  match fetchSpec pkg.package_uid dl toFetch fs2 with
  | .error e => .error e
  | .ok (fs3, es3) =>
    if pkg.objects.all (fun o => objectStatus fs3 o = .Ready) then
      .ok (fs3, es1 ++ es2 ++ es3)
    else
      .error "Not all objects are ready for use"

/-- Sample settings (polling enabled, hourly interval, writable storage). -/
def settingsW : Settings :=
  ⟨⟨true, 3600⟩, ⟨false⟩, ⟨"/var/lib/updatehub"⟩, ⟨"/usr/share/updatehub"⟩⟩

/-- Sample fresh runtime settings (never polled). -/
def rsW : RuntimeSettings := ⟨⟨none, false, none, 0⟩⟩

/-- Sample firmware metadata. -/
def fwW : Metadata := ⟨"product-1", "board-rev-a", "1.0"⟩

/-- Sample object checksum (the sha256 of "1234567890", as in the repository
tests). -/
def shaW : String :=
  "c775e7b757ede630cd0aa1113bd102661ab38829ca52a6422ab782862f268646"

/-- Sample update package with a single ten-byte object. -/
def pkgW : UpdatePackage := ⟨"package-uid-1", ["board-rev-a"], [⟨shaW, 10⟩]⟩

/-- Sample download directory: a foreign leftover file, a subdirectory, and a
corrupted copy of the object (size reached, hash mismatch). -/
def fsW : FileSystem :=
  [.file "leftover-file" ⟨4, "1df94c0d"⟩, .dir "subdir", .file shaW ⟨10, "0bad0bad"⟩]

/-- Sample download client: streaming always succeeds and the stored content
hashes to the requested checksum. -/
def dlW (sha : String) : Except String FileData := .ok ⟨10, sha⟩

/-- Sample context. -/
def innerW : InnerState := ⟨settingsW, rsW, fwW⟩

/-- Sample context as mutated by a `handle` run (a later `last`, `now` set,
five retries recorded): distinguishable from `innerW`. -/
def innerMutW : InnerState := ⟨settingsW, ⟨⟨some 42, true, none, 5⟩⟩, fwW⟩

/-- Sample transitioner as produced by a `handle` run: carries the mutated
context and plans a transition to `Reboot`. -/
def trW : StateTransitioner :=
  ⟨innerMutW, some "package-uid-1", fun i a => .reboot i a⟩

/-- Sample hook oracle that always cancels. -/
def hookCancelW (_s : String) : Except String Transition :=
  .ok .Cancel

/-- An effect trace that contains no write of the runtime-settings file. -/
def noSaveEffects (es : List Effect) : Prop :=
  ∀ rs : RuntimeSettings, Effect.saveRS rs ∉ es

/-! ## Theorems -/

/-- Helper: the retry loop of `Probe::handle` always hands back the runtime
settings with `polling.retries = 0` (the successful attempt resets them). -/
theorem probeRetry_retries_zero (k : Nat) :
    ∀ rs : RuntimeSettings, (probeRetry k rs).1.polling.retries = 0 := by
  induction k with
  | zero => intro rs; rfl
  | succ k ih => intro rs; simpa [probeRetry] using ih _

/-- Helper: the retry loop of `Probe::handle` only sleeps: its effect trace
is `k` one-second sleeps. -/
theorem probeRetry_effects (k : Nat) :
    ∀ rs : RuntimeSettings,
      (probeRetry k rs).2 = List.replicate k (Effect.sleepSecs 1) := by
  induction k with
  | zero => intro rs; rfl
  | succ k ih => intro rs; simp [probeRetry, ih, List.replicate_succ]

/-- Helper: `Poll::handle` always moves to `Probe` and passes the runtime
settings through unchanged, whichever branch it takes. -/
theorem pollHandle_next_rs (settings : Settings) (rs : RuntimeSettings)
    (currentTime offset : Int) :
    (pollHandle settings rs currentTime offset).next = .probe ∧
    (pollHandle settings rs currentTime offset).rs = rs := by
  unfold pollHandle
  by_cases hn : rs.polling.now
  · simp [hn]
  · simp only [hn, Bool.false_eq_true, if_false]
    split_ifs <;> exact ⟨trivial, rfl⟩

/-- Helper: `Poll::handle` either performs no effect at all or sleeps once
for the configured polling interval. -/
theorem pollHandle_effects_cases (settings : Settings) (rs : RuntimeSettings)
    (currentTime offset : Int) :
    (pollHandle settings rs currentTime offset).effects = [] ∨
    (pollHandle settings rs currentTime offset).effects =
      [Effect.sleepSecs settings.polling.interval] := by
  unfold pollHandle
  by_cases hn : rs.polling.now
  · simp [hn]
  · simp only [hn, Bool.false_eq_true, if_false]
    split_ifs <;> simp

/-- Claim C3: on entering `Poll` the decision is taken in the claimed order —
`polling.now` short-circuits straight to `Probe` with no sleep; otherwise
`last` is `polling.last` or, when that is `None`, the synthesized
`now + offset` (with `offset ∈ [0, interval)`), which is never written back;
`last > now` goes to `Probe`; `last + extra_interval.unwrap_or(0) < now` goes
to `Probe`; otherwise the state sleeps for the full configured interval (not
until the deadline) and then goes to `Probe`.  In every case the successor is
`Probe` and the runtime settings (in particular `polling.last`) are passed on
unchanged. -/
theorem poll_decides_in_claimed_order (settings : Settings) (rs : RuntimeSettings)
    (currentTime offset : Int) (h0 : 0 ≤ offset)
    (h1 : offset < settings.polling.interval) :
    (pollHandle settings rs currentTime offset).next = .probe ∧
    (pollHandle settings rs currentTime offset).rs = rs ∧
    (rs.polling.now = true → (pollHandle settings rs currentTime offset).effects = []) ∧
    (rs.polling.now = false →
      (rs.polling.last.getD (currentTime + offset) > currentTime →
        (pollHandle settings rs currentTime offset).effects = []) ∧
      (¬ rs.polling.last.getD (currentTime + offset) > currentTime →
        rs.polling.last.getD (currentTime + offset) +
          (rs.polling.extra_interval.getD 0) < currentTime →
        (pollHandle settings rs currentTime offset).effects = []) ∧
      (¬ rs.polling.last.getD (currentTime + offset) > currentTime →
        ¬ (rs.polling.last.getD (currentTime + offset) +
             (rs.polling.extra_interval.getD 0) < currentTime) →
        (pollHandle settings rs currentTime offset).effects =
          [Effect.sleepSecs settings.polling.interval])) := by
  refine ⟨(pollHandle_next_rs settings rs currentTime offset).1,
          (pollHandle_next_rs settings rs currentTime offset).2, ?_, ?_⟩
  · intro h; simp [pollHandle, h]
  · intro h
    simp only [gt_iff_lt]
    refine ⟨fun hgt => ?_, fun hngt hdue => ?_, fun hngt hndue => ?_⟩
    · simp [pollHandle, h, hgt]
    · simp only [pollHandle, h, Bool.false_eq_true, if_false]
      rw [if_neg hngt, if_pos hdue]
    · simp only [pollHandle, h, Bool.false_eq_true, if_false]
      rw [if_neg hngt, if_neg hndue]

/-- Witness for C3 at a concrete never-polled device and offset 5. -/
theorem poll_decides_in_claimed_order_witness :
    (0:Int) ≤ 5 ∧ (5:Int) < settingsW.polling.interval ∧
    (pollHandle settingsW rsW 100 5).next = .probe ∧
    (pollHandle settingsW rsW 100 5).rs = rsW :=
  ⟨by decide, by decide,
    (poll_decides_in_claimed_order settingsW rsW 100 5 (by decide) (by decide)).1,
    (poll_decides_in_claimed_order settingsW rsW 100 5 (by decide) (by decide)).2.1⟩

/-- Claim C9: for a device that has never probed (`polling.last = None`) with
`polling.now` false, every strictly positive random first-poll offset sends
`Poll` straight to `Probe` with no sleep: the synthesized last-poll value
`now + offset` lies in the future and triggers the clock-went-backward
guard, so the randomized stagger never delays the first probe. -/
theorem poll_first_positive_offset_probes (settings : Settings) (rs : RuntimeSettings)
    (currentTime offset : Int) (hlast : rs.polling.last = none)
    (hnow : rs.polling.now = false) (hpos : 0 < offset)
    (h1 : offset < settings.polling.interval) :
    (pollHandle settings rs currentTime offset).next = .probe ∧
    (pollHandle settings rs currentTime offset).effects = [] ∧
    (pollHandle settings rs currentTime offset).rs = rs := by
  have hgt : currentTime < currentTime + offset := by omega
  simp [pollHandle, hnow, hlast, hgt]

/-- Witness for C9 at a concrete never-polled device and offset 5. -/
theorem poll_first_positive_offset_probes_witness :
    rsW.polling.last = none ∧ rsW.polling.now = false ∧ (0:Int) < 5 ∧
    (pollHandle settingsW rsW 100 5).effects = [] :=
  ⟨rfl, rfl, by decide,
    (poll_first_positive_offset_probes settingsW rsW 100 5 rfl rfl
      (by decide) (by decide)).2.1⟩

/-- Helper: the runtime settings `Probe::handle` passes on are the retried
settings with `extra_interval` set from the response. -/
theorem probeHandle_rs_eq (settings : Settings) (rs : RuntimeSettings) (fw : Metadata)
    (apuid : Option String) (failures : Nat) (resp : ProbeResponse) :
    (probeHandle settings rs fw apuid failures resp).rs =
      setExtraInterval (probeRetry failures rs).1
        (match resp with
         | .ExtraPoll s => some s
         | _ => none) := by
  cases resp <;> simp only [probeHandle] <;> split_ifs <;> rfl

/-- Helper: the effect trace of `Probe::handle` is the retry sleeps followed
by the save of the passed-on runtime settings (skipped in read-only mode). -/
theorem probeHandle_effects_eq (settings : Settings) (rs : RuntimeSettings) (fw : Metadata)
    (apuid : Option String) (failures : Nat) (resp : ProbeResponse) :
    (probeHandle settings rs fw apuid failures resp).effects =
      List.replicate failures (Effect.sleepSecs 1) ++
        (if !settings.storage.read_only
         then [Effect.saveRS ((probeHandle settings rs fw apuid failures resp).rs)]
         else []) := by
  rw [probeHandle_rs_eq]
  cases resp <;> simp only [probeHandle] <;> split_ifs <;>
    simp_all [probeRetry_effects]

/-- Helper: no effect of `Probe::handle` touches the download directory. -/
theorem probeHandle_effects_no_touch (settings : Settings) (rs : RuntimeSettings)
    (fw : Metadata) (apuid : Option String) (failures : Nat) (resp : ProbeResponse) :
    ∀ e ∈ (probeHandle settings rs fw apuid failures resp).effects,
      e.touchesDownloadDir = false := by
  intro e he
  rw [probeHandle_effects_eq] at he
  rcases List.mem_append.1 he with h1 | h2
  · rcases List.mem_replicate.1 h1 with ⟨-, rfl⟩; rfl
  · split at h2
    · rw [List.mem_singleton] at h2; subst h2; rfl
    · exact absurd h2 (List.not_mem_nil e)

/-- Claim C4: if `applied_package_uid = Some(U)` and the probe returns a
hardware-compatible `Update(pkg)` with `pkg.package_uid = U`, the next state
after `Probe` is `Idle` with the applied package uid unchanged, and no effect
of the state touches the download directory (no `download_object` call, no
file created or removed); if the package uid differs, `Probe` transitions to
`Download` carrying the package. -/
theorem probe_applied_package_dedup (settings : Settings) (rs : RuntimeSettings)
    (fw : Metadata) (failures : Nat) (pkg : UpdatePackage) (u : String)
    (hcompat : pkg.compatible_with fw = true) :
    (pkg.package_uid = u →
      (probeHandle settings rs fw (some u) failures (.Update pkg)).next =
        .ok (.idle (some u)) ∧
      ∀ e ∈ (probeHandle settings rs fw (some u) failures (.Update pkg)).effects,
        e.touchesDownloadDir = false) ∧
    (pkg.package_uid ≠ u →
      (probeHandle settings rs fw (some u) failures (.Update pkg)).next =
        .ok (.download pkg)) := by
  constructor
  · intro huid
    exact ⟨by simp [probeHandle, hcompat, huid],
           probeHandle_effects_no_touch settings rs fw (some u) failures (.Update pkg)⟩
  · intro huid
    simp [probeHandle, hcompat, huid]

/-- Witness for C4 at the sample package, already applied. -/
theorem probe_applied_package_dedup_witness :
    pkgW.compatible_with fwW = true ∧
    (probeHandle settingsW rsW fwW (some "package-uid-1") 0 (.Update pkgW)).next =
      .ok (.idle (some "package-uid-1")) :=
  ⟨by decide,
    ((probe_applied_package_dedup settingsW rsW fwW 0 pkgW "package-uid-1"
      (by decide)).1 rfl).1⟩

/-- Claim C10: for every successful server response, `Probe` sets
`extra_interval` (`Some s` for `ExtraPoll(s)`, `None` otherwise), resets
`retries` to 0 and saves the runtime settings (in a non-read-only
deployment) before the response is further inspected; consequently, when the
advertised update is hardware-incompatible and `Probe` fails, the save of
the runtime settings with `retries = 0` and `extra_interval = None` has
already been traced — the error does not leave the persisted settings
unchanged. -/
theorem probe_saves_before_inspecting_response (settings : Settings)
    (rs : RuntimeSettings) (fw : Metadata) (apuid : Option String)
    (failures : Nat) (resp : ProbeResponse)
    (hro : settings.storage.read_only = false) :
    (probeHandle settings rs fw apuid failures resp).rs.polling.extra_interval =
      (match resp with
       | .ExtraPoll s => some s
       | _ => none) ∧
    (probeHandle settings rs fw apuid failures resp).rs.polling.retries = 0 ∧
    Effect.saveRS ((probeHandle settings rs fw apuid failures resp).rs) ∈
      (probeHandle settings rs fw apuid failures resp).effects ∧
    (∀ pkg, resp = .Update pkg → pkg.compatible_with fw = false →
      ∃ e, (probeHandle settings rs fw apuid failures resp).next = .error e) := by
  refine ⟨?_, ?_, ?_, ?_⟩
  · rw [probeHandle_rs_eq]; cases resp <;> rfl
  · rw [probeHandle_rs_eq]
    cases resp <;> simp [setExtraInterval, probeRetry_retries_zero]
  · rw [probeHandle_effects_eq, hro]
    simp
  · intro pkg hresp hcompat
    subst hresp
    simp [probeHandle, hcompat]

/-- Witness for C10 at a hardware-incompatible package. -/
theorem probe_saves_before_inspecting_response_witness :
    settingsW.storage.read_only = false ∧
    (probeHandle settingsW rsW fwW none 0
        (.Update ⟨"package-uid-2", ["other-board"], []⟩)).rs.polling.retries = 0 ∧
    Effect.saveRS ((probeHandle settingsW rsW fwW none 0
        (.Update ⟨"package-uid-2", ["other-board"], []⟩)).rs) ∈
      (probeHandle settingsW rsW fwW none 0
        (.Update ⟨"package-uid-2", ["other-board"], []⟩)).effects ∧
    (∃ e, (probeHandle settingsW rsW fwW none 0
        (.Update ⟨"package-uid-2", ["other-board"], []⟩)).next = .error e) := by
  have h := probe_saves_before_inspecting_response settingsW rsW fwW none 0
    (.Update ⟨"package-uid-2", ["other-board"], []⟩) rfl
  exact ⟨rfl, h.2.1, h.2.2.1, h.2.2.2 _ rfl (by decide)⟩

/-- Claim C7: when `Install::handle` succeeds on a package, it has set
`runtime_settings.polling.now` to true, recorded
`applied_package_uid = Some(pkg.package_uid)`, saved the runtime settings
exactly when the storage is not read-only, and its successor state is
`Reboot` carrying that applied package uid. -/
theorem install_closes_update_cycle (settings : Settings) (rs : RuntimeSettings)
    (pkg : UpdatePackage) :
    (installHandle settings rs pkg).rs.polling.now = true ∧
    (installHandle settings rs pkg).next = .reboot (some pkg.package_uid) ∧
    (settings.storage.read_only = false →
      (installHandle settings rs pkg).effects =
        [Effect.saveRS (installHandle settings rs pkg).rs]) ∧
    (settings.storage.read_only = true →
      (installHandle settings rs pkg).effects = []) := by
  refine ⟨rfl, rfl, fun h => ?_, fun h => ?_⟩ <;> simp [installHandle, h, setPollingNow]

/-- Witness for C7 at the sample package on writable storage. -/
theorem install_closes_update_cycle_witness :
    settingsW.storage.read_only = false ∧
    (installHandle settingsW rsW pkgW).effects =
      [Effect.saveRS (installHandle settingsW rsW pkgW).rs] :=
  ⟨rfl, (install_closes_update_cycle settingsW rsW pkgW).2.2.1 rfl⟩

/-- Claim C2 (amended): `State::handle_callbacks` always invokes the state's
`handle` operation first, producing a transitioner; only then, for a state
with a callback name, it consults the state-change-callback hook.  On
`Continue` (or when the state has no callback name) the transitioner's
planned transition is applied; on `Cancel` the planned transition is
discarded and the next state is `Idle` carrying the transitioner's
(post-handle) context and applied package uid; a hook error is fatal. -/
theorem handle_callbacks_runs_handle_then_hook (callbackName : Option String)
    (handleResult : Except String StateTransitioner)
    (hook : String → Except String Transition) :
    (∀ e, handleResult = .error e →
      handle_callbacks callbackName handleResult hook = (.error e, [.handleCalled])) ∧
    (∀ tr, handleResult = .ok tr → callbackName = none →
      handle_callbacks callbackName handleResult hook = (.ok tr.run, [.handleCalled])) ∧
    (∀ tr n, handleResult = .ok tr → callbackName = some n →
      (hook n = .ok .Continue →
        handle_callbacks callbackName handleResult hook =
          (.ok tr.run, [.handleCalled, .hookCalled n])) ∧
      (hook n = .ok .Cancel →
        handle_callbacks callbackName handleResult hook =
          (.ok (.idle tr.inner tr.applied_package_uid), [.handleCalled, .hookCalled n])) ∧
      (∀ e, hook n = .error e →
        handle_callbacks callbackName handleResult hook =
          (.error e, [.handleCalled, .hookCalled n]))) := by
  refine ⟨fun e he => ?_, fun tr htr hcb => ?_, fun tr n htr hcb => ?_⟩
  · subst he; rfl
  · subst htr; subst hcb; rfl
  · subst htr; subst hcb
    refine ⟨fun hh => ?_, fun hh => ?_, fun e hh => ?_⟩ <;>
      simp [handle_callbacks, hh, StateTransitioner.cancelled]

/-- Witness for the amended C2: a cancelling hook on the sample transitioner. -/
theorem handle_callbacks_runs_handle_then_hook_witness :
    hookCancelW "download" = .ok .Cancel ∧
    handle_callbacks (some "download") (.ok trW) hookCancelW =
      (.ok (.idle trW.inner trW.applied_package_uid),
       [.handleCalled, .hookCalled "download"]) :=
  ⟨rfl, (((handle_callbacks_runs_handle_then_hook (some "download") (.ok trW)
      hookCancelW).2.2 trW "download" rfl rfl).2.1 rfl)⟩

/-- Counterexample to C2 as stated: at a concrete state whose hook cancels,
the driver's event trace shows `handle` invoked, and invoked before the
hook; moreover the `Idle` produced by the cancellation carries the context
as mutated by `handle` (`innerMutW`), not the pre-handle context (`innerW`).
So the hook is not consulted before `handle`, and `handle` is called even
when the hook cancels. -/
theorem hook_consulted_after_handle_counterexample :
    (handle_callbacks (some "download") (.ok trW) hookCancelW).2 =
      [.handleCalled, .hookCalled "download"] ∧
    DriverEvent.handleCalled ∈ (handle_callbacks (some "download") (.ok trW) hookCancelW).2 ∧
    (handle_callbacks (some "download") (.ok trW) hookCancelW).1 =
      .ok (.idle innerMutW (some "package-uid-1")) ∧
    innerMutW ≠ innerW := by
  refine ⟨rfl, by decide, rfl, by decide⟩

/-- Claim C5: whenever the state-change-callback returns `Cancel` for a state
with a callback name, the state after it is `Idle` carrying the context and
applied package uid of the transitioner — regardless of the transition the
state's `handle` had planned. -/
theorem cancel_always_redirects_to_idle (name : String) (tr : StateTransitioner)
    (hook : String → Except String Transition) (h : hook name = .ok .Cancel) :
    handle_callbacks (some name) (.ok tr) hook =
      (.ok (.idle tr.inner tr.applied_package_uid), [.handleCalled, .hookCalled name]) := by
  simp [handle_callbacks, h, StateTransitioner.cancelled]

/-- Witness for C5 on the sample transitioner (which planned `Reboot`). -/
theorem cancel_always_redirects_to_idle_witness :
    hookCancelW "download" = .ok .Cancel ∧
    handle_callbacks (some "download") (.ok trW) hookCancelW =
      (.ok (.idle trW.inner trW.applied_package_uid),
       [.handleCalled, .hookCalled "download"]) :=
  ⟨rfl, cancel_always_redirects_to_idle "download" trW hookCancelW rfl⟩

/-- Helper: splitting a space-free character list yields that single token. -/
theorem splitn2SpaceAux_no_space :
    ∀ (cs acc : List Char), ' ' ∉ cs →
      splitn2SpaceAux acc cs = [acc.reverse ++ cs]
  | [], acc, _ => by simp [splitn2SpaceAux]
  | c :: rest, acc, h => by
    have hc : ¬ c = ' ' := fun hh => h (by simp [hh])
    have ih := splitn2SpaceAux_no_space rest (c :: acc)
      (fun hm => h (List.mem_cons_of_mem _ hm))
    simp [splitn2SpaceAux, hc, ih]

/-- Helper: splitting a character list that contains a space yields exactly
two tokens. -/
theorem splitn2SpaceAux_with_space :
    ∀ (cs acc : List Char), ' ' ∈ cs →
      ∃ a b, splitn2SpaceAux acc cs = [a, b]
  | [], _, h => absurd h (List.not_mem_nil _)
  | c :: rest, acc, h => by
    by_cases hc : c = ' '
    · exact ⟨acc.reverse, rest, by simp [splitn2SpaceAux, hc]⟩
    · have hr : ' ' ∈ rest := by
        rcases List.mem_cons.1 h with h1 | h1
        · exact absurd h1.symm hc
        · exact h1
      obtain ⟨a, b, hab⟩ := splitn2SpaceAux_with_space rest (c :: acc) hr
      exact ⟨a, b, by simp [splitn2SpaceAux, hc, hab]⟩

/-- Helper: `splitn(2, ' ')` of a space-free input is the single token. -/
theorem splitn2Space_no_space (cs : List Char) (h : ' ' ∉ cs) :
    splitn2Space cs = [cs] := by
  simpa using splitn2SpaceAux_no_space cs [] h

/-- Claim C6: `state_change_callback` returns `Continue` when the state has
no callback name or the hook file does not exist; otherwise it runs the
script and, on the trimmed stdout split at the first space into at most two
tokens, returns `Cancel` exactly for the single token "cancel", `Continue`
exactly for empty output, and an error for every other output. -/
theorem state_change_callback_protocol (callbackName : Option String)
    (hookExists : Bool) (stdout : String) :
    (state_change_callback none hookExists (.ok stdout) = .ok .Continue) ∧
    (state_change_callback callbackName false (.ok stdout) = .ok .Continue) ∧
    (∀ n, callbackName = some n → hookExists = true →
      (state_change_callback callbackName hookExists (.ok stdout) = .ok .Cancel ↔
        rustTrim stdout.data = "cancel".data) ∧
      (state_change_callback callbackName hookExists (.ok stdout) = .ok .Continue ↔
        rustTrim stdout.data = []) ∧
      (rustTrim stdout.data ≠ "cancel".data → rustTrim stdout.data ≠ [] →
        ∃ e, state_change_callback callbackName hookExists (.ok stdout) = .error e)) := by
  refine ⟨rfl, ?_, ?_⟩
  · cases callbackName <;> simp [state_change_callback]
  · intro n hcb hex
    subst hcb; subst hex
    by_cases hsp : ' ' ∈ rustTrim stdout.data
    · obtain ⟨a, b, hab⟩ := splitn2SpaceAux_with_space (rustTrim stdout.data) [] hsp
      have habs : splitn2Space (rustTrim stdout.data) = [a, b] := hab
      refine ⟨?_, ?_, ?_⟩
      · simp only [state_change_callback, habs]
        constructor
        · intro h; cases h
        · intro h; rw [h] at hsp; simp at hsp
      · simp only [state_change_callback, habs]
        constructor
        · intro h; cases h
        · intro h; rw [h] at hsp; simp at hsp
      · intro h1 h2
        refine ⟨"Invalid format found while running the hook for state " ++ n, ?_⟩
        simp only [state_change_callback, habs, Bool.not_true, Bool.false_eq_true,
          if_false]
    · have hone : splitn2Space (rustTrim stdout.data) = [rustTrim stdout.data] :=
        splitn2Space_no_space _ hsp
      refine ⟨?_, ?_, ?_⟩
      · simp only [state_change_callback, hone]
        by_cases hcans : rustTrim stdout.data = "cancel".data
        · simp [hcans]
        · simp only [if_neg hcans]
          constructor
          · intro h
            by_cases hnil : rustTrim stdout.data = []
            · rw [if_pos hnil] at h; cases h
            · rw [if_neg hnil] at h; cases h
          · intro h; exact absurd h hcans
      · simp only [state_change_callback, hone]
        by_cases hcans : rustTrim stdout.data = "cancel".data
        · rw [if_pos hcans]
          constructor
          · intro h; cases h
          · intro h; rw [h] at hcans; cases hcans
        · rw [if_neg hcans]
          by_cases hnil : rustTrim stdout.data = []
          · simp [hnil]
          · rw [if_neg hnil]
            constructor
            · intro h; cases h
            · intro h; exact absurd h hnil
      · intro h1 h2
        refine ⟨"Invalid format found while running the hook for state " ++ n, ?_⟩
        simp only [state_change_callback, hone, Bool.not_true, Bool.false_eq_true,
          if_false]
        rw [if_neg h1, if_neg h2]

/-- Witness for C6: "cancel" with a trailing newline cancels, empty output
continues, and a missing callback name continues. -/
theorem state_change_callback_protocol_witness :
    state_change_callback (some "download") true (.ok "cancel\n") = .ok .Cancel ∧
    state_change_callback (some "install") true (.ok "") = .ok .Continue ∧
    state_change_callback none true (.ok "whatever") = .ok .Continue :=
  ⟨((state_change_callback_protocol (some "download") true "cancel\n").2.2
      "download" rfl rfl).1.mpr (by decide),
   ((state_change_callback_protocol (some "install") true "").2.2
      "install" rfl rfl).2.1.mpr (by decide),
   (state_change_callback_protocol none true "whatever").1⟩

/-- Helper: the foreign-file prune emits only file removals. -/
theorem pruneForeignLoop_noSave (shas : List String) :
    ∀ fs : FileSystem, noSaveEffects (pruneForeignLoop shas fs).2 := by
  intro fs
  induction fs with
  | nil => intro rs h; simp [pruneForeignLoop] at h
  | cons e rest ih =>
    cases e with
    | dir n => intro rs h; exact ih rs (by simpa [pruneForeignLoop] using h)
    | file n d =>
      intro rs h
      by_cases hc : n ∈ shas
      · exact ih rs (by simpa [pruneForeignLoop, hc] using h)
      · simp only [pruneForeignLoop] at h
        rw [if_neg (by simpa using hc)] at h
        rcases List.mem_cons.1 h with h1 | h1
        · cases h1
        · exact ih rs h1

/-- Helper: the corrupted-object prune emits only file removals. -/
theorem pruneCorruptedLoop_noSave :
    ∀ (os : List UObject) (fs fs' : FileSystem) (es : List Effect),
      pruneCorruptedLoop os fs = .ok (fs', es) → noSaveEffects es := by
  intro os
  induction os with
  | nil =>
    intro fs fs' es h rs hmem
    simp only [pruneCorruptedLoop, Except.ok.injEq, Prod.mk.injEq] at h
    rw [← h.2] at hmem
    simp at hmem
  | cons o os ih =>
    intro fs fs' es h rs hmem
    simp only [pruneCorruptedLoop] at h
    split at h
    · cases h
    · split at h
      · cases h
      · rename_i fs1 heq1 fs2 es2 heq2
        cases h
        rcases List.mem_cons.1 hmem with h1 | h1
        · cases h1
        · exact ih _ _ _ heq2 rs h1

/-- Helper: the fetch loop emits only `download_object` calls. -/
theorem fetchLoop_noSave (package_uid : String) (dl : String → Except String FileData) :
    ∀ (os : List UObject) (fs fs' : FileSystem) (es : List Effect),
      fetchLoop package_uid dl os fs = .ok (fs', es) → noSaveEffects es := by
  intro os
  induction os with
  | nil =>
    intro fs fs' es h rs hmem
    simp only [fetchLoop, Except.ok.injEq, Prod.mk.injEq] at h
    rw [← h.2] at hmem
    simp at hmem
  | cons o os ih =>
    intro fs fs' es h rs hmem
    simp only [fetchLoop] at h
    split at h
    · cases h
    · split at h
      · cases h
      · rename_i d heq1 fs2 es2 heq2
        cases h
        rcases List.mem_cons.1 hmem with h1 | h1
        · cases h1
        · exact ih _ _ _ heq2 rs h1

/-- Helper: `Download::handle` never writes the runtime-settings file. -/
theorem downloadHandle_noSave (pkg : UpdatePackage) (fs : FileSystem)
    (dl : String → Except String FileData) (fs' : FileSystem) (es : List Effect)
    (h : downloadHandle pkg fs dl = .ok (fs', es)) : noSaveEffects es := by
  intro rs hmem
  simp only [downloadHandle] at h
  split at h
  · cases h
  · rename_i fs2 es2 heq2
    split at h
    · cases h
    · rename_i fs3 es3 heq3
      split at h
      · cases h
        rcases List.mem_append.1 hmem with h1 | h1
        · rcases List.mem_append.1 h1 with h2 | h2
          · exact pruneForeignLoop_noSave (shaList pkg) fs rs h2
          · exact pruneCorruptedLoop_noSave _ _ _ _ heq2 rs h2
        · exact fetchLoop_noSave pkg.package_uid dl _ _ _ _ heq3 rs h1
      · cases h

/-- Claim C8: with `storage.read_only = true` the runtime-settings file is
never written — Probe and Install (the only states that save) trace no save,
and Poll and Download trace no save either — while every state transition
and every passed-on runtime-settings value is identical to what it would be
with `read_only = false`. -/
theorem read_only_skips_saves_but_transitions_identically
    (settings : Settings) (rs : RuntimeSettings) (fw : Metadata)
    (apuid : Option String) (failures : Nat) (resp : ProbeResponse)
    (pkg : UpdatePackage) (currentTime offset : Int)
    (fs : FileSystem) (dl : String → Except String FileData) :
    noSaveEffects
      (probeHandle { settings with storage := ⟨true⟩ } rs fw apuid failures resp).effects ∧
    noSaveEffects (installHandle { settings with storage := ⟨true⟩ } rs pkg).effects ∧
    noSaveEffects (pollHandle { settings with storage := ⟨true⟩ } rs currentTime offset).effects ∧
    (∀ fs' es, downloadHandle pkg fs dl = .ok (fs', es) → noSaveEffects es) ∧
    (probeHandle { settings with storage := ⟨true⟩ } rs fw apuid failures resp).next =
      (probeHandle { settings with storage := ⟨false⟩ } rs fw apuid failures resp).next ∧
    (probeHandle { settings with storage := ⟨true⟩ } rs fw apuid failures resp).rs =
      (probeHandle { settings with storage := ⟨false⟩ } rs fw apuid failures resp).rs ∧
    (installHandle { settings with storage := ⟨true⟩ } rs pkg).next =
      (installHandle { settings with storage := ⟨false⟩ } rs pkg).next ∧
    (installHandle { settings with storage := ⟨true⟩ } rs pkg).rs =
      (installHandle { settings with storage := ⟨false⟩ } rs pkg).rs ∧
    pollHandle { settings with storage := ⟨true⟩ } rs currentTime offset =
      pollHandle { settings with storage := ⟨false⟩ } rs currentTime offset ∧
    idleHandle { settings with storage := ⟨true⟩ } =
      idleHandle { settings with storage := ⟨false⟩ } := by
  refine ⟨?_, ?_, ?_, fun fs' es h => downloadHandle_noSave pkg fs dl fs' es h,
    ?_, ?_, rfl, rfl, rfl, rfl⟩
  · intro r hmem
    rw [probeHandle_effects_eq] at hmem
    simp [List.mem_replicate] at hmem
  · intro r hmem
    simp [installHandle] at hmem
  · intro r hmem
    rcases pollHandle_effects_cases { settings with storage := ⟨true⟩ } rs currentTime offset
      with h | h <;> rw [h] at hmem <;> simp at hmem
  · cases resp <;> simp only [probeHandle] <;> split_ifs <;> rfl
  · rw [probeHandle_rs_eq, probeHandle_rs_eq]

/-- Witness for C8 at the sample inputs. -/
theorem read_only_skips_saves_witness :
    noSaveEffects (installHandle { settingsW with storage := ⟨true⟩ } rsW pkgW).effects ∧
    (probeHandle { settingsW with storage := ⟨true⟩ } rsW fwW none 0 .NoUpdate).next =
      (probeHandle { settingsW with storage := ⟨false⟩ } rsW fwW none 0 .NoUpdate).next :=
  ⟨(read_only_skips_saves_but_transitions_identically settingsW rsW fwW none 0
      .NoUpdate pkgW 100 5 fsW dlW).2.1,
   (read_only_skips_saves_but_transitions_identically settingsW rsW fwW none 0
      .NoUpdate pkgW 100 5 fsW dlW).2.2.2.2.1⟩

/-- Helper: a `Corrupted` status implies the object's file is present. -/
theorem corrupted_lookup_isSome (fs : FileSystem) (o : UObject)
    (h : objectStatus fs o = .Corrupted) : lookupFile fs o.sha256sum ≠ none := by
  unfold objectStatus at h
  cases hl : lookupFile fs o.sha256sum with
  | none => rw [hl] at h; cases h
  | some d => exact fun hc => by cases hc

/-- Helper: the foreign-file prune loop is the spec-side filter, and its
effect trace is the removal of the foreign file names in directory order. -/
theorem pruneForeignLoop_eq (shas : List String) :
    ∀ fs : FileSystem,
      pruneForeignLoop shas fs =
        (pruneForeignSpec shas fs, (foreignNames shas fs).map Effect.fsRemove) := by
  intro fs
  induction fs with
  | nil => rfl
  | cons e rest ih =>
    cases e with
    | dir n => simp [pruneForeignLoop, pruneForeignSpec, foreignNames, fileNames, ih,
        List.filter_cons]
    | file n d =>
      by_cases hc : n ∈ shas <;>
        simp [pruneForeignLoop, pruneForeignSpec, foreignNames, fileNames, ih,
          List.filter_cons, hc]

/-- Helper: filtering a directory only removes file names. -/
theorem fileNames_filter_sublist (p : FSEntry → Bool) :
    ∀ fs : FileSystem, List.Sublist (fileNames (List.filter p fs)) (fileNames fs) := by
  intro fs
  induction fs with
  | nil => simp [fileNames]
  | cons e rest ih =>
    cases e with
    | dir n =>
      by_cases hp : p (.dir n) <;> simp [List.filter_cons, hp, fileNames, ih]
    | file n d =>
      by_cases hp : p (.file n d)
      · simpa [List.filter_cons, hp, fileNames] using ih.cons₂ n
      · simpa [List.filter_cons, hp, fileNames] using ih.cons n

/-- Helper: removing a present file from a directory with distinct file
names is exactly the name filter. -/
theorem removeFileE_eq (n : String) :
    ∀ fs : FileSystem, lookupFile fs n ≠ none → (fileNames fs).Nodup →
      removeFileE fs n = .ok (removeName n fs) := by
  intro fs
  induction fs with
  | nil => intro h _; exact absurd rfl h
  | cons e rest ih =>
    intro hpres hnd
    cases e with
    | dir m =>
      have h1 : lookupFile rest n ≠ none := by simpa [lookupFile] using hpres
      have h2 : (fileNames rest).Nodup := by simpa [fileNames] using hnd
      simp [removeFileE, removeName, List.filter_cons, ih h1 h2, Except.map]
    | file m d =>
      by_cases hm : m = n
      · subst hm
        simp only [fileNames] at hnd
        have hnotin : m ∉ fileNames rest := (List.nodup_cons.1 hnd).1
        have hall : removeName m rest = rest := by
          unfold removeName
          apply List.filter_eq_self.2
          intro e he
          cases e with
          | dir k => rfl
          | file k dk =>
            have : k ∈ fileNames rest := by
              clear hnd hnotin ih hpres
              induction rest with
              | nil => cases he
              | cons e2 r2 ih2 =>
                rcases List.mem_cons.1 he with h1 | h1
                · rw [← h1]; simp [fileNames]
                · cases e2 with
                  | dir _ => simpa [fileNames] using ih2 h1
                  | file n2 d2 => simp [fileNames]; exact Or.inr (ih2 h1)
            have hkn : ¬ k = m := fun hh => hnotin (hh ▸ this)
            simpa using fun hh => absurd hh hkn
        unfold removeName at hall ⊢
        simp [removeFileE, List.filter_cons, hall]
      · have h1 : lookupFile rest n ≠ none := by
          simpa [lookupFile, hm] using hpres
        have h2 : (fileNames rest).Nodup := by
          simp only [fileNames] at hnd; exact (List.nodup_cons.1 hnd).2
        simp [removeFileE, hm, removeName, List.filter_cons, ih h1 h2, Except.map]

/-- Helper: removing one name leaves the lookup of any other name intact. -/
theorem lookupFile_removeName (n m : String) (hnm : m ≠ n) :
    ∀ fs : FileSystem, lookupFile (removeName n fs) m = lookupFile fs m := by
  intro fs
  induction fs with
  | nil => rfl
  | cons e rest ih =>
    cases e with
    | dir k => simpa [removeName, List.filter_cons, lookupFile] using ih
    | file k d =>
      by_cases hk : k = n
      · subst hk
        have : ¬ k = m := fun hh => hnm (hh ▸ rfl)
        simpa [removeName, List.filter_cons, lookupFile, this] using ih
      · by_cases hkm : k = m
        · subst hkm
          simp [removeName, List.filter_cons, lookupFile, hk]
        · simpa [removeName, List.filter_cons, lookupFile, hk, hkm] using ih

/-- Helper: filtering with the empty name list keeps everything. -/
theorem pruneCorruptedSpec_nil (fs : FileSystem) : pruneCorruptedSpec [] fs = fs := by
  unfold pruneCorruptedSpec
  apply List.filter_eq_self.2
  intro e he
  cases e <;> simp

/-- Helper: filtering out one more name factors through `removeName`. -/
theorem pruneCorruptedSpec_cons (n : String) (ns : List String) (fs : FileSystem) :
    pruneCorruptedSpec (n :: ns) fs = pruneCorruptedSpec ns (removeName n fs) := by
  unfold pruneCorruptedSpec removeName
  rw [List.filter_filter]
  apply List.filter_congr
  intro e he
  cases e with
  | dir k => rfl
  | file k d => by_cases hk : k = n <;> by_cases hm : k ∈ ns <;> simp [hk, hm]

/-- Helper: the corrupted-object prune loop, run on present objects with
distinct checksums over a directory with distinct file names, succeeds and
equals the spec-side filter, tracing one removal per object in order. -/
theorem pruneCorruptedLoop_eq :
    ∀ (os : List UObject) (fs : FileSystem),
      (∀ o ∈ os, lookupFile fs o.sha256sum ≠ none) →
      (os.map (fun o => o.sha256sum)).Nodup →
      (fileNames fs).Nodup →
      pruneCorruptedLoop os fs =
        .ok (pruneCorruptedSpec (os.map (fun o => o.sha256sum)) fs,
             os.map (fun o => Effect.fsRemove o.sha256sum)) := by
  intro os
  induction os with
  | nil =>
    intro fs _ _ _
    simp [pruneCorruptedLoop, pruneCorruptedSpec_nil]
  | cons o os ih =>
    intro fs hpres hnd hfs
    have hhead : lookupFile fs o.sha256sum ≠ none := hpres o (List.mem_cons_self o os)
    have hrem : removeFileE fs o.sha256sum = .ok (removeName o.sha256sum fs) :=
      removeFileE_eq o.sha256sum fs hhead hfs
    have hnotin : o.sha256sum ∉ os.map (fun o => o.sha256sum) :=
      (List.nodup_cons.1 (by simpa using hnd)).1
    have hpres2 : ∀ o2 ∈ os, lookupFile (removeName o.sha256sum fs) o2.sha256sum ≠ none := by
      intro o2 h2
      have hne : o2.sha256sum ≠ o.sha256sum := fun hh =>
        hnotin (hh ▸ List.mem_map_of_mem (fun o => o.sha256sum) h2)
      rw [lookupFile_removeName o.sha256sum o2.sha256sum hne]
      exact hpres o2 (List.mem_cons_of_mem o h2)
    have hnd2 : (os.map (fun o => o.sha256sum)).Nodup :=
      (List.nodup_cons.1 (by simpa using hnd)).2
    have hfs2 : (fileNames (removeName o.sha256sum fs)).Nodup :=
      hfs.sublist (fileNames_filter_sublist _ fs)
    simp only [pruneCorruptedLoop, hrem, ih (removeName o.sha256sum fs) hpres2 hnd2 hfs2,
      List.map_cons]
    rw [pruneCorruptedSpec_cons]

/-- Helper: the code-side fetch loop and the spec-side fetch agree. -/
theorem fetchLoop_eq_fetchSpec (package_uid : String)
    (dl : String → Except String FileData) :
    ∀ (os : List UObject) (fs : FileSystem),
      fetchLoop package_uid dl os fs = fetchSpec package_uid dl os fs := by
  intro os
  induction os with
  | nil => intro fs; rfl
  | cons o os ih =>
    intro fs
    simp only [fetchLoop, fetchSpec]
    cases dl o.sha256sum with
    | error e => rfl
    | ok d =>
      show (match fetchLoop package_uid dl os (writeFile fs o.sha256sum d) with
        | .error e => Except.error e
        | .ok (fs2, es) =>
          Except.ok (fs2, Effect.dlCall package_uid o.sha256sum :: es)) =
        (match fetchSpec package_uid dl os (writeFile fs o.sha256sum d) with
        | .error e => Except.error e
        | .ok (fs2, es) =>
          Except.ok (fs2, Effect.dlCall package_uid o.sha256sum :: es))
      rw [ih]

/-- Claim C1: for every download directory (with distinct file names) and
package (with distinct object checksums), `Download::handle` equals the
claimed four-step pipeline `downloadSpec`: first remove every regular file
immediately under the directory whose name is not a declared sha256sum
(without recursing into subdirectories), then remove the file of every
`Corrupted` object, then invoke `download_object` for every `Missing` and
then every `Incomplete` object, and finally transition to `Install` when
every object is `Ready`, failing with "Not all objects are ready for use"
otherwise. -/
theorem download_reconciles_in_claimed_order (pkg : UpdatePackage) (fs : FileSystem)
    (dl : String → Except String FileData)
    (hfs : (fileNames fs).Nodup) (hsha : (shaList pkg).Nodup) :
    downloadHandle pkg fs dl = downloadSpec pkg fs dl := by
  have hfs1 : (fileNames (pruneForeignSpec (shaList pkg) fs)).Nodup :=
    hfs.sublist (fileNames_filter_sublist _ fs)
  have hpres : ∀ o ∈ filterObjects pkg (pruneForeignSpec (shaList pkg) fs) .Corrupted,
      lookupFile (pruneForeignSpec (shaList pkg) fs) o.sha256sum ≠ none := by
    intro o ho
    have hdec := (List.mem_filter.1 ho).2
    exact corrupted_lookup_isSome _ o (of_decide_eq_true hdec)
  have hsub : ((filterObjects pkg (pruneForeignSpec (shaList pkg) fs) .Corrupted).map
      (fun o => o.sha256sum)).Sublist (shaList pkg) := by
    unfold filterObjects shaList
    exact List.Sublist.map (fun o : UObject => o.sha256sum)
      (List.filter_sublist pkg.objects)
  have hnodup : ((filterObjects pkg (pruneForeignSpec (shaList pkg) fs) .Corrupted).map
      (fun o => o.sha256sum)).Nodup := hsha.sublist hsub
  simp only [downloadHandle, downloadSpec, pruneForeignLoop_eq,
    pruneCorruptedLoop_eq _ _ hpres hnodup hfs1, fetchLoop_eq_fetchSpec]

/-- Witness for C1 at the sample directory (a foreign leftover file, a
subdirectory, a corrupted object copy) and the sample single-object
package. -/
theorem download_reconciles_in_claimed_order_witness :
    (fileNames fsW).Nodup ∧ (shaList pkgW).Nodup ∧
    downloadHandle pkgW fsW dlW = downloadSpec pkgW fsW dlW :=
  ⟨by decide, by decide,
    download_reconciles_in_claimed_order pkgW fsW dlW (by decide) (by decide)⟩
